import Mathlib

/-!
Verification development for the SuperFile Explorer script (`src/sf/sf.py`).

The Python source is shallowly embedded below.  Paths are lists of
components (`[]` is the filesystem root `/`), the filesystem itself is an
abstract record of the OS primitives the script calls (`os.listdir`,
`os.path.isdir`, `os.stat`, `mimetypes.guess_type`, `os.access`,
`os.path.exists`); a `Option.none` result of `listdir`/`stat` models the
primitive raising an exception.  Machine-level details that no claim
touches (the display-only string fields `size_str`, `modified_str`,
`content_str` and `type`, which are produced by float formatting and are
only ever rendered) are omitted; every field and branch that feeds the
navigation logic or the sorts is translated.

The module defines `interactive_explorer` twice; at load time the second
definition (line 849, without pagination handlers) replaces the first
(line 314, with pagination handlers).  The loop body of the second,
effective definition is embedded as `step`; the loop body of the first,
shadowed definition is embedded as `step_paginated`.
-/

/-- A path, as the list of its components; `[]` is the root `/`. -/
abbrev FPath := List String

/-- `os.path.dirname`: drop the last component (`dirname '/' = '/'`). -/
def dirname (p : FPath) : FPath := p.dropLast

/-- Result of a successful `os.stat`: size in bytes and modification time
(`st_mtime`, as an integer timestamp). -/
structure FileStat where
  size : Nat
  mtime : Int
deriving DecidableEq

/-- The ambient filesystem / OS interface used by the script. -/
structure FS where
  /-- `os.listdir p`: `some` of the names in directory order, or
  `Option.none` when the call raises (missing or unreadable path). -/
  listdir : FPath → Option (List String)
  /-- `os.path.isdir`. -/
  isDir : FPath → Bool
  /-- `os.stat p`: `Option.none` when the call raises. -/
  stat : FPath → Option FileStat
  /-- `mimetypes.guess_type p` first component. -/
  mimeGuess : FPath → Option String
  /-- `os.access p os.X_OK`. -/
  accessX : FPath → Bool
  /-- `os.path.exists`. -/
  pexists : FPath → Bool

/-- The `FILE_ICONS` table of the script. -/
def FILE_ICONS : List (String × String) :=
  [(".py", "🐍"), (".js", "📜"), (".html", "🌐"), (".css", "🎨"),
   (".md", "📝"), (".txt", "📄"), (".pdf", "📕"), (".jpg", "🖼️"),
   (".png", "🖼️"), (".gif", "🖼️"), (".mp3", "🎵"), (".mp4", "🎬"),
   (".zip", "📦"), (".tar", "📦"), (".gz", "📦"), (".json", "📋"),
   (".xml", "📋"), (".csv", "📊"), (".xls", "📊"), (".xlsx", "📊"),
   (".doc", "📘"), (".docx", "📘"), (".sh", "⚙️"), (".bat", "⚙️"),
   (".exe", "⚙️"), (".db", "🗄️"), (".sql", "🗄️"), (".c", "💻"),
   (".cpp", "💻"), (".java", "☕"), (".php", "🐘"), (".rb", "💎"),
   (".rs", "🦀"), (".go", "🐹")]

/-- `FILE_ICONS.get(extension, "📄")`. -/
def iconFor (ext : String) : String :=
  match FILE_ICONS.find? (fun kv => kv.1 == ext) with
  | some kv => kv.2
  | Option.none => "📄"

/-- `os.path.splitext(name)[1]`: the extension of a single path component,
with Python's rule that leading dots of the component never start an
extension. -/
def splitextExt (name : String) : String :=
  let cs := name.toList
  let lead := (cs.takeWhile (fun ch => ch == '.')).length
  let rest := cs.drop lead
  let tl := (rest.reverse.takeWhile (fun ch => ch != '.')).reverse
  if tl.length < rest.length then String.mk ('.' :: tl) else ""

/-- Python `str.lower()`, applied character by character. -/
def strLower (s : String) : String := String.mk (s.toList.map Char.toLower)

/-- Python `str.startswith('.')`: whether the first character is a dot. -/
def startsWithDot (s : String) : Bool :=
  match s.toList with
  | [] => false
  | ch :: _ => ch == '.'

/-- The record built by `get_file_info` (display-only `size_str` and
`modified_str` omitted). -/
structure FileInfo where
  size : Nat
  modified : Int
  mime_type : String
  icon : String
  extension : String
deriving DecidableEq

/-- `get_file_info(path)`: stat the file, guess its MIME type (falling back
on the executable bit), pick an icon by extension; on any exception return
the sentinel record (`size 0`, `modified = datetime.now()`,
`mime_type "unknown"`). `now` is the current time. -/
def get_file_info (fs : FS) (now : Int) (p : FPath) : FileInfo :=
  match fs.stat p with
  | some st =>
      let mime :=
        match fs.mimeGuess p with
        | some m => m
        | Option.none =>
            if fs.accessX p then "application/x-executable"
            else "application/octet-stream"
      let ext := strLower (splitextExt (p.getLastD ""))
      { size := st.size, modified := st.mtime, mime_type := mime,
        icon := iconFor ext, extension := ext }
  | Option.none =>
      { size := 0, modified := now, mime_type := "unknown",
        icon := "❓", extension := "" }

/-- `≤` on `Bool` as a boolean (`False < True`, as in Python). -/
def boolLe (x y : Bool) : Bool := !x || y

/-- Python string `≤`: lexicographic comparison of code points, on the
underlying character lists. -/
def strLeL : List Char → List Char → Bool
  | [], _ => true
  | _ :: _, [] => false
  | a :: as, b :: bs =>
      decide (a.toNat < b.toNat) || (decide (a.toNat = b.toNat) && strLeL as bs)

/-- Python string `≤` on `String`. -/
def strLe (a b : String) : Bool := strLeL a.toList b.toList

/-- `≤` on `Int` as a boolean. -/
def intLe (a b : Int) : Bool := decide (a ≤ b)

/-- Lexicographic `≤` on a `(Bool, String)` sort key, the key used by the
`type` sort (`(not is_dir, name.lower())`). -/
def pairLe (p q : Bool × String) : Bool :=
  (!p.1 && q.1) || ((p.1 == q.1) && strLe p.2 q.2)

/-- Insert `x` into `l` before the first element `y` with `le x y`.
Together with `pySort` this is a stable insertion sort, the behaviour of
Python's stable `list.sort`. -/
def insertSorted (le : α → α → Bool) (x : α) : List α → List α
  | [] => [x]
  | y :: ys => if le x y then x :: y :: ys else y :: insertSorted le x ys

/-- Stable sort with boolean comparator `le` (`le a b` means `a` may come
before `b`); models Python's stable `list.sort`. -/
def pySort (le : α → α → Bool) : List α → List α
  | [] => []
  | x :: xs => insertSorted le x (pySort le xs)

/-- The comparator induced by `key=` and `reverse=` arguments of Python's
`list.sort`: ascending by key, or descending when `rev` (equal keys keep
their original relative order either way). -/
def keyedL (base : β → β → Bool) (key : α → β) (rev : Bool) (a b : α) : Bool :=
  cond rev (base (key b) (key a)) (base (key a) (key b))

/-- One directory entry as built by `list_directory` (a Python dict; absent
keys are `Option.none`, matching the `.get` defaults used by the sorts;
the display-only `type`/`size_str`/`modified_str`/`content_str` strings
are omitted). -/
structure Entry where
  name : String
  path : FPath
  is_dir : Bool
  size : Option Nat := Option.none
  modified : Option Int := Option.none
  content_count : Option Int := Option.none
  mime_type : Option String := Option.none
  icon : Option String := Option.none
  extension : Option String := Option.none
deriving DecidableEq

/-- The `sort_by` values of the global `CONFIG`. -/
inductive SortKey where
  | name | type | size | date
deriving DecidableEq

/-- The global `CONFIG` dict (the fields the navigation logic reads;
`theme`, `preview_size` and `recent_paths` are never read by it). -/
structure Config where
  show_hidden : Bool
  sort_by : SortKey
  reverse_sort : Bool
  favorites : List FPath
deriving DecidableEq

/-- The sort key of the `size` sort:
`x.get("size", 0) if not x["is_dir"] else x.get("content_count", -1)`. -/
def sizeKey (x : Entry) : Int :=
  if x.is_dir then x.content_count.getD (-1) else (x.size.getD 0 : Nat)

/-- One entry dict of `list_directory`, for child `item` of directory `p`. -/
def mkEntry (fs : FS) (now : Int) (p : FPath) (show_details : Bool)
    (item : String) : Entry :=
  let full_path := p ++ [item]
  let is_dir := fs.isDir full_path
  if show_details && !is_dir then
    let info := get_file_info fs now full_path
    { name := item, path := full_path, is_dir := is_dir,
      size := some info.size, modified := some info.modified,
      mime_type := some info.mime_type, icon := some info.icon,
      extension := some info.extension }
  else if show_details then
    match fs.listdir full_path with
    | some l =>
        { name := item, path := full_path, is_dir := is_dir,
          content_count := some (l.length : Int), icon := some "📁" }
    | Option.none =>
        { name := item, path := full_path, is_dir := is_dir,
          content_count := some (-1 : Int), icon := some "🔒" }
  else { name := item, path := full_path, is_dir := is_dir }

/-- `list_directory(path)`: list the children, filter hidden names unless
`show_hidden`, decorate each entry, sort by the configured key (the `size`
and `date` sorts only when `show_details`), then — unless sorting by type —
stably move all directories before all files.  When `os.listdir` raises,
the `except` branch prints the error and the (still empty) entry list is
returned. -/
def list_directory (fs : FS) (cfg : Config) (now : Int) (p : FPath)
    (show_details : Bool) : List Entry :=
  match fs.listdir p with
  | Option.none => []
  | some items0 =>
    let items :=
      if cfg.show_hidden then items0
      else items0.filter (fun n => !(startsWithDot n))
    let entries := items.map (mkEntry fs now p show_details)
    let entries1 :=
      match cfg.sort_by with
      | SortKey.name =>
          pySort (keyedL strLe (fun x => strLower x.name) cfg.reverse_sort) entries
      | SortKey.type =>
          pySort (keyedL pairLe (fun x => (!x.is_dir, strLower x.name))
            cfg.reverse_sort) entries
      | SortKey.size =>
          if show_details then pySort (keyedL intLe sizeKey cfg.reverse_sort) entries
          else entries
      | SortKey.date =>
          if show_details then
            pySort (keyedL intLe (fun x => x.modified.getD now) cfg.reverse_sort) entries
          else entries
    if cfg.sort_by ≠ SortKey.type then
      pySort (keyedL boolLe (fun x => !x.is_dir) false) entries1
    else entries1

/-- Whether `list_directory` hits its `except` branch and prints the
"Erreur lors de la lecture du répertoire" message. -/
def list_directory_error (fs : FS) (p : FPath) : Bool :=
  match fs.listdir p with
  | Option.none => true
  | some _ => false

/-- Python list indexing `l[i]` with negative-index wrap-around;
`Option.none` models an `IndexError`. -/
def pyGet (l : List α) (i : Int) : Option α :=
  let j := if i < 0 then (l.length : Int) + i else i
  if 0 ≤ j then l.get? j.toNat else Option.none

/-- The loose loop state of `interactive_explorer`:
`current_path` and `selected_idx`. -/
structure NavState where
  current_path : FPath
  selected_idx : Int
deriving DecidableEq

/-- The options of the Tab menu of the effective `interactive_explorer`. -/
inductive TabOption where
  | stats | hexview | props | copy | move | delete | back
deriving DecidableEq

/-- One decoded key of the interaction loop, with the answers of any
follow-up prompt folded in: `search r` carries the resolved result path the
user picked (`Option.none`: no query, no result or none chosen),
`sortSel k` carries the chosen sort key, `tab o` the chosen menu option.
`noKey` is an unrecognized key (`get_key` returned `None`). -/
inductive Key where
  | up | down | left | right | space | enter
  | tab (opt : TabOption)
  | search (result : Option FPath)
  | hidden
  | sortSel (chosen : SortKey)
  | refresh
  | fav
  | quit
  | noKey
deriving DecidableEq

/-- `findPathIdx rp l i`: the Python loop
`for i, entry in enumerate(new_entries): if entry["path"] == result_path:
selected_idx = i; break` — the index of the first entry whose `path` is
`rp`, counting from `i`. -/
def findPathIdx (rp : FPath) : List Entry → Nat → Option Nat
  | [], _ => Option.none
  | e :: es, i => if e.path = rp then some i else findPathIdx rp es (i + 1)

/-- One iteration of the loop of the second (effective) definition of
`interactive_explorer` (line 849): re-list the current directory, then
dispatch on the decoded key.  `Option.none` models an uncaught exception
(the `IndexError` of an out-of-range `entries[selected_idx]`); `quit`
breaks the loop with the state unchanged. -/
def step (fs : FS) (now : Int) (c : Config) (s : NavState) (k : Key) :
    Option (Config × NavState) :=
  match k with
  | Key.quit => some (c, s)
  | Key.up =>
      some (c, { s with selected_idx := max (s.selected_idx - 1) (-1) })
  | Key.down =>
      let entries := list_directory fs c now s.current_path true
      some (c, { s with selected_idx := min (s.selected_idx + 1) ((entries.length : Int) - 1) })
  | Key.left => some (c, s)
  | Key.right => some (c, s)
  | Key.space => some (c, s)
  | Key.enter =>
      if s.selected_idx = -1 then
        some (c, { current_path :=
                     if s.current_path = [] then s.current_path
                     else dirname s.current_path,
                   selected_idx := 0 })
      else
        match pyGet (list_directory fs c now s.current_path true) s.selected_idx with
        | Option.none => Option.none
        | some sel =>
            if sel.is_dir then some (c, { current_path := sel.path, selected_idx := 0 })
            else some (c, s)
  | Key.tab opt =>
      match opt with
      | TabOption.stats =>
          if 0 ≤ s.selected_idx then
            match pyGet (list_directory fs c now s.current_path true) s.selected_idx with
            | Option.none => Option.none
            | some _ => some (c, s)
          else some (c, s)
      | TabOption.hexview =>
          if 0 ≤ s.selected_idx then
            match pyGet (list_directory fs c now s.current_path true) s.selected_idx with
            | Option.none => Option.none
            | some _ => some (c, s)
          else some (c, s)
      | TabOption.props =>
          if 0 ≤ s.selected_idx then
            match pyGet (list_directory fs c now s.current_path true) s.selected_idx with
            | Option.none => Option.none
            | some _ => some (c, s)
          else some (c, s)
      | _ => some (c, s)
  | Key.search r =>
      match r with
      | Option.none => some (c, s)
      | some rp =>
          if fs.isDir rp then some (c, { current_path := rp, selected_idx := 0 })
          else
            let idx1 : Int :=
              match findPathIdx rp (list_directory fs c now (dirname rp) true) 0 with
              | some i => (i : Int)
              | Option.none => s.selected_idx
            some (c, { current_path := dirname rp, selected_idx := idx1 })
  | Key.hidden =>
      some ({ c with show_hidden := !c.show_hidden }, { s with selected_idx := 0 })
  | Key.sortSel chosen =>
      if chosen = c.sort_by then
        some ({ c with reverse_sort := !c.reverse_sort }, { s with selected_idx := 0 })
      else
        some ({ c with sort_by := chosen, reverse_sort := false },
              { s with selected_idx := 0 })
  | Key.refresh => some (c, { s with selected_idx := 0 })
  | Key.fav =>
      if s.current_path ∈ c.favorites then
        some ({ c with favorites := c.favorites.erase s.current_path }, s)
      else
        some ({ c with favorites := c.favorites ++ [s.current_path] }, s)
  | Key.noKey => some (c, s)

/-- One iteration of the loop of the first (shadowed) definition of
`interactive_explorer` (line 314, the pagination-aware one): it handles
`up`, `down`, `left`, `right`, `space`, `enter` and `q` only.  `//` is
Python floor division (`Int.fdiv`), `page_size = 20`. -/
def step_paginated (fs : FS) (now : Int) (c : Config) (s : NavState) (k : Key) :
    Option (Config × NavState) :=
  let entries := list_directory fs c now s.current_path true
  let page_size : Int := 20
  let total_entries : Int := entries.length
  let total_pages : Int := max 1 (Int.fdiv (total_entries + page_size - 1) page_size)
  let current_page : Int :=
    min (max 0 (Int.fdiv (s.selected_idx + 1) page_size)) (total_pages - 1)
  match k with
  | Key.quit => some (c, s)
  | Key.up =>
      let idx1 : Int := if s.selected_idx > -1 then max (s.selected_idx - 1) (-1) else -1
      some (c, { s with selected_idx := idx1 })
  | Key.down =>
      some (c, { s with selected_idx := min (s.selected_idx + 1) (total_entries - 1) })
  | Key.left =>
      some (c, { s with selected_idx := max ((max (current_page - 1) 0) * page_size) (-1) })
  | Key.right =>
      if current_page < total_pages - 1 then
        let new_page := min (current_page + 1) (total_pages - 1)
        some (c, { s with selected_idx := new_page * page_size })
      else some (c, s)
  | Key.space =>
      if current_page < total_pages - 1 then
        let new_page := min (current_page + 1) (total_pages - 1)
        some (c, { s with selected_idx := new_page * page_size })
      else some (c, s)
  | Key.enter =>
      if s.selected_idx = -1 then
        some (c, { current_path :=
                     if s.current_path = [] then s.current_path
                     else dirname s.current_path,
                   selected_idx := 0 })
      else if s.selected_idx < total_entries then
        match pyGet entries s.selected_idx with
        | Option.none => Option.none
        | some sel =>
            if sel.is_dir then some (c, { current_path := sel.path, selected_idx := 0 })
            else some (c, s)
      else some (c, s)
  | _ => some (c, s)

/-- The initial configuration of the script (`CONFIG` at load time and with
no `--show-hidden` flag). -/
def cfg0 : Config :=
  { show_hidden := false, sort_by := SortKey.name, reverse_sort := false,
    favorites := [] }

/-- A filesystem on which every OS call fails (every path missing or
unreadable). -/
def fsNone : FS :=
  { listdir := fun _ => Option.none, isDir := fun _ => false,
    stat := fun _ => Option.none, mimeGuess := fun _ => Option.none,
    accessX := fun _ => false, pexists := fun _ => false }

/-- Zero-padded names `f00` … `f44`, listed in ascending order. -/
def name45 (i : Nat) : String :=
  if i < 10 then "f0" ++ toString i else "f" ++ toString i

/-- A filesystem whose root holds 45 plain files. -/
def fs45 : FS :=
  { fsNone with
    listdir := fun p => if p = [] then some ((List.range 45).map name45) else Option.none,
    isDir := fun p => decide (p = []) }

/-- A filesystem whose root holds one plain file `a`. -/
def fsC3 : FS :=
  { fsNone with
    listdir := fun p => if p = [] then some ["a"] else Option.none,
    isDir := fun p => decide (p = []) }

/-- A filesystem whose root holds two plain files `a` and `b`. -/
def fsC4 : FS :=
  { fsNone with
    listdir := fun p => if p = [] then some ["a", "b"] else Option.none,
    isDir := fun p => decide (p = []) }

/-- A filesystem whose root holds one empty directory `d`. -/
def fsC5 : FS :=
  { fsNone with
    listdir := fun p =>
      if p = [] then some ["d"] else if p = ["d"] then some [] else Option.none,
    isDir := fun p => decide (p = ["d"]) }

/-- A filesystem whose root holds files `a`, `b` and a directory `d`
containing a single hidden file `.h`. -/
def fsC6 : FS :=
  { fsNone with
    listdir := fun p =>
      if p = [] then some ["a", "b", "d"]
      else if p = ["d"] then some [".h"] else Option.none,
    isDir := fun p => p == [] || p == ["d"],
    pexists := fun p => decide (p = ["d", ".h"]) }

/-- A filesystem whose root holds a directory `d` and a plain file `f`. -/
def fsC7 : FS :=
  { fsNone with
    listdir := fun p =>
      if p = [] then some ["d", "f"] else if p = ["d"] then some [] else Option.none,
    isDir := fun p => decide (p = ["d"]) }

/-- The configuration after choosing the `type` sort twice in a row
(`sort_by = type`, `reverse_sort = True`). -/
def cfgTypeRev : Config := { cfg0 with sort_by := SortKey.type, reverse_sort := true }

/-! ### Stable-sort machinery: a sorted output is pairwise ordered. -/

theorem mem_insertSorted {le : α → α → Bool} {x a : α} :
    ∀ {l : List α}, a ∈ insertSorted le x l ↔ a = x ∨ a ∈ l := by
  intro l
  induction l with
  | nil => simp [insertSorted]
  | cons y ys ih =>
      simp only [insertSorted]
      by_cases h : le x y = true
      · simp [h, List.mem_cons]
      · simp only [if_neg h, List.mem_cons, ih]
        tauto

theorem pairwise_insertSorted {le : α → α → Bool}
    (htot : ∀ a b, le a b = true ∨ le b a = true)
    (htrans : ∀ a b c, le a b = true → le b c = true → le a c = true)
    (x : α) :
    ∀ {l : List α}, l.Pairwise (fun a b => le a b = true) →
      (insertSorted le x l).Pairwise (fun a b => le a b = true) := by
  intro l
  induction l with
  | nil => intro _; simp [insertSorted]
  | cons y ys ih =>
      intro h
      rw [List.pairwise_cons] at h
      obtain ⟨hy, hys⟩ := h
      simp only [insertSorted]
      by_cases hxy : le x y = true
      · rw [if_pos hxy, List.pairwise_cons]
        refine ⟨?_, List.pairwise_cons.mpr ⟨hy, hys⟩⟩
        intro b hb
        rcases List.mem_cons.mp hb with hbx | hb2
        · rw [hbx]; exact hxy
        · exact htrans x y b hxy (hy b hb2)
      · rw [if_neg hxy, List.pairwise_cons]
        refine ⟨?_, ih hys⟩
        intro b hb
        rcases mem_insertSorted.mp hb with hbx | hb2
        · rw [hbx]
          rcases htot x y with h1 | h1
          · exact absurd h1 hxy
          · exact h1
        · exact hy b hb2

theorem pairwise_pySort {le : α → α → Bool}
    (htot : ∀ a b, le a b = true ∨ le b a = true)
    (htrans : ∀ a b c, le a b = true → le b c = true → le a c = true) :
    ∀ l : List α, (pySort le l).Pairwise (fun a b => le a b = true) := by
  intro l
  induction l with
  | nil => simp [pySort]
  | cons x xs ih => exact pairwise_insertSorted htot htrans x ih

/-! ### The concrete comparators are total and transitive. -/

theorem boolLe_total : ∀ x y : Bool, boolLe x y = true ∨ boolLe y x = true := by decide

theorem boolLe_trans :
    ∀ x y z : Bool, boolLe x y = true → boolLe y z = true → boolLe x z = true := by decide

theorem strLeL_total : ∀ as bs, strLeL as bs = true ∨ strLeL bs as = true := by
  intro as
  induction as with
  | nil => intro bs; left; cases bs <;> rfl
  | cons a as ih =>
      intro bs
      cases bs with
      | nil => right; rfl
      | cons b bs2 =>
          simp only [strLeL, Bool.or_eq_true, Bool.and_eq_true, decide_eq_true_eq]
          rcases Nat.lt_trichotomy a.toNat b.toNat with h | h | h
          · exact Or.inl (Or.inl h)
          · rcases ih bs2 with h2 | h2
            · exact Or.inl (Or.inr ⟨h, h2⟩)
            · exact Or.inr (Or.inr ⟨h.symm, h2⟩)
          · exact Or.inr (Or.inl h)

theorem strLeL_trans :
    ∀ as bs cs, strLeL as bs = true → strLeL bs cs = true → strLeL as cs = true := by
  intro as
  induction as with
  | nil => intro bs cs _ _; cases cs <;> simp [strLeL]
  | cons a as ih =>
      intro bs cs h1 h2
      cases bs with
      | nil => simp [strLeL] at h1
      | cons b bs2 =>
          cases cs with
          | nil => simp [strLeL] at h2
          | cons c cs2 =>
              simp only [strLeL, Bool.or_eq_true, Bool.and_eq_true,
                decide_eq_true_eq] at h1 h2 ⊢
              rcases h1 with h1 | ⟨h1e, h1r⟩
              · rcases h2 with h2 | ⟨h2e, _⟩
                · exact Or.inl (Nat.lt_trans h1 h2)
                · exact Or.inl (h2e ▸ h1)
              · rcases h2 with h2 | ⟨h2e, h2r⟩
                · exact Or.inl (h1e ▸ h2)
                · exact Or.inr ⟨h1e.trans h2e, ih bs2 cs2 h1r h2r⟩

theorem strLe_total : ∀ a b : String, strLe a b = true ∨ strLe b a = true := by
  intro a b; exact strLeL_total a.toList b.toList

theorem strLe_trans :
    ∀ a b c : String, strLe a b = true → strLe b c = true → strLe a c = true := by
  intro a b c; exact strLeL_trans a.toList b.toList c.toList

theorem intLe_total : ∀ a b : Int, intLe a b = true ∨ intLe b a = true := by
  intro a b
  simp only [intLe, decide_eq_true_eq]
  omega

theorem intLe_trans :
    ∀ a b c : Int, intLe a b = true → intLe b c = true → intLe a c = true := by
  intro a b c
  simp only [intLe, decide_eq_true_eq]
  omega

theorem pairLe_total : ∀ p q, pairLe p q = true ∨ pairLe q p = true := by
  rintro ⟨x, sx⟩ ⟨y, sy⟩
  rcases strLe_total sx sy with h | h <;> cases x <;> cases y <;>
    simp [pairLe, h]

theorem pairLe_trans :
    ∀ p q r, pairLe p q = true → pairLe q r = true → pairLe p r = true := by
  rintro ⟨x, sx⟩ ⟨y, sy⟩ ⟨z, sz⟩ h1 h2
  cases x <;> cases y <;> cases z <;> simp [pairLe] at h1 h2 ⊢ <;>
    exact strLe_trans sx sy sz h1 h2

theorem keyedL_total {base : β → β → Bool}
    (hb : ∀ x y, base x y = true ∨ base y x = true) (key : α → β) (rev : Bool) :
    ∀ a b, keyedL base key rev a b = true ∨ keyedL base key rev b a = true := by
  intro a b
  cases rev
  · exact hb (key a) (key b)
  · exact hb (key b) (key a)

theorem keyedL_trans {base : β → β → Bool}
    (hb : ∀ x y z, base x y = true → base y z = true → base x z = true)
    (key : α → β) (rev : Bool) :
    ∀ a b c, keyedL base key rev a b = true → keyedL base key rev b c = true →
      keyedL base key rev a c = true := by
  intro a b c h1 h2
  cases rev
  · exact hb (key a) (key b) (key c) h1 h2
  · exact hb (key c) (key b) (key a) h2 h1
theorem findPathIdx_eq_none (rp : FPath) :
    ∀ (l : List Entry) (k : Nat), (∀ e ∈ l, e.path ≠ rp) →
      findPathIdx rp l k = Option.none := by
  intro l
  induction l with
  | nil => intro k _; rfl
  | cons e es ih =>
      intro k h
      simp only [findPathIdx]
      rw [if_neg (h e (List.mem_cons_self e es))]
      exact ih (k + 1) (fun x hx => h x (List.mem_cons_of_mem e hx))

theorem findPathIdx_eq_some (rp : FPath) :
    ∀ (l : List Entry) (i : Nat) (e : Entry) (k : Nat),
      l.get? i = some e → e.path = rp →
      (∀ j, j < i → ∀ e2, l.get? j = some e2 → e2.path ≠ rp) →
      findPathIdx rp l k = some (k + i) := by
  intro l
  induction l with
  | nil => intro i e k hg _ _; simp at hg
  | cons a as ih =>
      intro i e k hg he hpre
      cases i with
      | zero =>
          simp only [List.get?] at hg
          injection hg with hg
          subst hg
          simp only [findPathIdx]
          rw [if_pos he]
          rfl
      | succ i2 =>
          have hhead : a.path ≠ rp := hpre 0 (Nat.succ_pos i2) a rfl
          simp only [findPathIdx]
          rw [if_neg hhead]
          have hrec := ih i2 e (k + 1) hg he
            (fun j hj e2 hge => hpre (j + 1) (Nat.succ_lt_succ hj) e2 hge)
          rw [hrec]
          congr 1
          omega

/-- The per-iteration entry list of the effective loop. -/
def entriesOf (fs : FS) (now : Int) (c : Config) (s : NavState) : List Entry :=
  list_directory fs c now s.current_path true

/-- The spec's cursor range invariant, with the parent floor the code
actually uses: `selected_idx` is at least `-1` and is either within the
current listing or exactly `0`. -/
def idxInv (fs : FS) (now : Int) (c : Config) (s : NavState) : Prop :=
  -1 ≤ s.selected_idx ∧
    (s.selected_idx ≤ ((entriesOf fs now c s).length : Int) - 1 ∨ s.selected_idx = 0)

theorem list_directory_fav_congr (fs : FS) (sh : Bool) (sb : SortKey) (rv : Bool)
    (f1 f2 : List FPath) (now : Int) (p : FPath) (d : Bool) :
    list_directory fs ⟨sh, sb, rv, f1⟩ now p d =
      list_directory fs ⟨sh, sb, rv, f2⟩ now p d := rfl

theorem step_lb
    (fs : FS) (now : Int) (c : Config) (s : NavState) (k : Key)
    (c1 : Config) (s1 : NavState)
    (h : -1 ≤ s.selected_idx) (he : step fs now c s k = some (c1, s1)) :
    -1 ≤ s1.selected_idx := by
  cases k with
  | up =>
      simp only [step, Option.some.injEq, Prod.mk.injEq] at he
      obtain ⟨rfl, rfl⟩ := he
      exact le_max_right _ _
  | down =>
      simp only [step, Option.some.injEq, Prod.mk.injEq] at he
      obtain ⟨rfl, rfl⟩ := he
      dsimp only
      rcases min_cases (s.selected_idx + 1)
        (((list_directory fs c now s.current_path true).length : Int) - 1) with
        ⟨h1, _⟩ | ⟨h1, _⟩ <;> rw [h1] <;> omega
  | left =>
      simp only [step, Option.some.injEq, Prod.mk.injEq] at he
      obtain ⟨rfl, rfl⟩ := he; exact h
  | right =>
      simp only [step, Option.some.injEq, Prod.mk.injEq] at he
      obtain ⟨rfl, rfl⟩ := he; exact h
  | space =>
      simp only [step, Option.some.injEq, Prod.mk.injEq] at he
      obtain ⟨rfl, rfl⟩ := he; exact h
  | enter =>
      simp only [step] at he
      split at he
      · simp only [Option.some.injEq, Prod.mk.injEq] at he
        obtain ⟨rfl, rfl⟩ := he; norm_num
      · split at he
        · exact absurd he (by simp)
        · split at he
          · simp only [Option.some.injEq, Prod.mk.injEq] at he
            obtain ⟨rfl, rfl⟩ := he; norm_num
          · simp only [Option.some.injEq, Prod.mk.injEq] at he
            obtain ⟨rfl, rfl⟩ := he; exact h
  | tab opt =>
      cases opt with
      | stats =>
          simp only [step] at he
          split at he
          · split at he
            · exact absurd he (by simp)
            · simp only [Option.some.injEq, Prod.mk.injEq] at he
              obtain ⟨rfl, rfl⟩ := he; exact h
          · simp only [Option.some.injEq, Prod.mk.injEq] at he
            obtain ⟨rfl, rfl⟩ := he; exact h
      | hexview =>
          simp only [step] at he
          split at he
          · split at he
            · exact absurd he (by simp)
            · simp only [Option.some.injEq, Prod.mk.injEq] at he
              obtain ⟨rfl, rfl⟩ := he; exact h
          · simp only [Option.some.injEq, Prod.mk.injEq] at he
            obtain ⟨rfl, rfl⟩ := he; exact h
      | props =>
          simp only [step] at he
          split at he
          · split at he
            · exact absurd he (by simp)
            · simp only [Option.some.injEq, Prod.mk.injEq] at he
              obtain ⟨rfl, rfl⟩ := he; exact h
          · simp only [Option.some.injEq, Prod.mk.injEq] at he
            obtain ⟨rfl, rfl⟩ := he; exact h
      | copy =>
          simp only [step, Option.some.injEq, Prod.mk.injEq] at he
          obtain ⟨rfl, rfl⟩ := he; exact h
      | move =>
          simp only [step, Option.some.injEq, Prod.mk.injEq] at he
          obtain ⟨rfl, rfl⟩ := he; exact h
      | delete =>
          simp only [step, Option.some.injEq, Prod.mk.injEq] at he
          obtain ⟨rfl, rfl⟩ := he; exact h
      | back =>
          simp only [step, Option.some.injEq, Prod.mk.injEq] at he
          obtain ⟨rfl, rfl⟩ := he; exact h
  | search r =>
      cases r with
      | none =>
          simp only [step, Option.some.injEq, Prod.mk.injEq] at he
          obtain ⟨rfl, rfl⟩ := he; exact h
      | some rp =>
          simp only [step] at he
          split at he
          · simp only [Option.some.injEq, Prod.mk.injEq] at he
            obtain ⟨rfl, rfl⟩ := he; norm_num
          · simp only [Option.some.injEq, Prod.mk.injEq] at he
            obtain ⟨rfl, rfl⟩ := he
            dsimp only
            split
            · omega
            · exact h
  | hidden =>
      simp only [step, Option.some.injEq, Prod.mk.injEq] at he
      obtain ⟨rfl, rfl⟩ := he; norm_num
  | sortSel chosen =>
      simp only [step] at he
      split at he <;>
        · simp only [Option.some.injEq, Prod.mk.injEq] at he
          obtain ⟨rfl, rfl⟩ := he; norm_num
  | refresh =>
      simp only [step, Option.some.injEq, Prod.mk.injEq] at he
      obtain ⟨rfl, rfl⟩ := he; norm_num
  | fav =>
      simp only [step] at he
      split at he <;>
        · simp only [Option.some.injEq, Prod.mk.injEq] at he
          obtain ⟨rfl, rfl⟩ := he; exact h
  | quit =>
      simp only [step, Option.some.injEq, Prod.mk.injEq] at he
      obtain ⟨rfl, rfl⟩ := he; exact h
  | noKey =>
      simp only [step, Option.some.injEq, Prod.mk.injEq] at he
      obtain ⟨rfl, rfl⟩ := he; exact h

theorem step_inv
    (fs : FS) (now : Int) (c : Config) (s : NavState) (k : Key)
    (c1 : Config) (s1 : NavState)
    (hk : ∀ r, k ≠ Key.search r) (hinv : idxInv fs now c s)
    (he : step fs now c s k = some (c1, s1)) :
    idxInv fs now c1 s1 := by
  unfold idxInv entriesOf at hinv ⊢
  obtain ⟨ha, hb⟩ := hinv
  cases k with
  | up =>
      simp only [step, Option.some.injEq, Prod.mk.injEq] at he
      obtain ⟨rfl, rfl⟩ := he
      dsimp only
      refine ⟨le_max_right _ _, Or.inl ?_⟩
      apply max_le
      · rcases hb with hb | hb <;> omega
      · omega
  | down =>
      simp only [step, Option.some.injEq, Prod.mk.injEq] at he
      obtain ⟨rfl, rfl⟩ := he
      dsimp only
      constructor
      · rcases min_cases (s.selected_idx + 1)
          (((list_directory fs c now s.current_path true).length : Int) - 1) with
          ⟨h1, _⟩ | ⟨h1, _⟩ <;> rw [h1] <;> omega
      · exact Or.inl (min_le_right _ _)
  | left =>
      simp only [step, Option.some.injEq, Prod.mk.injEq] at he
      obtain ⟨rfl, rfl⟩ := he; exact ⟨ha, hb⟩
  | right =>
      simp only [step, Option.some.injEq, Prod.mk.injEq] at he
      obtain ⟨rfl, rfl⟩ := he; exact ⟨ha, hb⟩
  | space =>
      simp only [step, Option.some.injEq, Prod.mk.injEq] at he
      obtain ⟨rfl, rfl⟩ := he; exact ⟨ha, hb⟩
  | enter =>
      simp only [step] at he
      split at he
      · simp only [Option.some.injEq, Prod.mk.injEq] at he
        obtain ⟨rfl, rfl⟩ := he
        exact ⟨by norm_num, Or.inr rfl⟩
      · split at he
        · exact absurd he (by simp)
        · split at he
          · simp only [Option.some.injEq, Prod.mk.injEq] at he
            obtain ⟨rfl, rfl⟩ := he
            exact ⟨by norm_num, Or.inr rfl⟩
          · simp only [Option.some.injEq, Prod.mk.injEq] at he
            obtain ⟨rfl, rfl⟩ := he; exact ⟨ha, hb⟩
  | tab opt =>
      cases opt with
      | stats =>
          simp only [step] at he
          split at he
          · split at he
            · exact absurd he (by simp)
            · simp only [Option.some.injEq, Prod.mk.injEq] at he
              obtain ⟨rfl, rfl⟩ := he; exact ⟨ha, hb⟩
          · simp only [Option.some.injEq, Prod.mk.injEq] at he
            obtain ⟨rfl, rfl⟩ := he; exact ⟨ha, hb⟩
      | hexview =>
          simp only [step] at he
          split at he
          · split at he
            · exact absurd he (by simp)
            · simp only [Option.some.injEq, Prod.mk.injEq] at he
              obtain ⟨rfl, rfl⟩ := he; exact ⟨ha, hb⟩
          · simp only [Option.some.injEq, Prod.mk.injEq] at he
            obtain ⟨rfl, rfl⟩ := he; exact ⟨ha, hb⟩
      | props =>
          simp only [step] at he
          split at he
          · split at he
            · exact absurd he (by simp)
            · simp only [Option.some.injEq, Prod.mk.injEq] at he
              obtain ⟨rfl, rfl⟩ := he; exact ⟨ha, hb⟩
          · simp only [Option.some.injEq, Prod.mk.injEq] at he
            obtain ⟨rfl, rfl⟩ := he; exact ⟨ha, hb⟩
      | copy =>
          simp only [step, Option.some.injEq, Prod.mk.injEq] at he
          obtain ⟨rfl, rfl⟩ := he; exact ⟨ha, hb⟩
      | move =>
          simp only [step, Option.some.injEq, Prod.mk.injEq] at he
          obtain ⟨rfl, rfl⟩ := he; exact ⟨ha, hb⟩
      | delete =>
          simp only [step, Option.some.injEq, Prod.mk.injEq] at he
          obtain ⟨rfl, rfl⟩ := he; exact ⟨ha, hb⟩
      | back =>
          simp only [step, Option.some.injEq, Prod.mk.injEq] at he
          obtain ⟨rfl, rfl⟩ := he; exact ⟨ha, hb⟩
  | search r => exact absurd rfl (hk r)
  | hidden =>
      simp only [step, Option.some.injEq, Prod.mk.injEq] at he
      obtain ⟨rfl, rfl⟩ := he
      exact ⟨by norm_num, Or.inr rfl⟩
  | sortSel chosen =>
      simp only [step] at he
      split at he <;>
        · simp only [Option.some.injEq, Prod.mk.injEq] at he
          obtain ⟨rfl, rfl⟩ := he
          exact ⟨by norm_num, Or.inr rfl⟩
  | refresh =>
      simp only [step, Option.some.injEq, Prod.mk.injEq] at he
      obtain ⟨rfl, rfl⟩ := he
      exact ⟨by norm_num, Or.inr rfl⟩
  | fav =>
      simp only [step] at he
      split at he <;>
        · simp only [Option.some.injEq, Prod.mk.injEq] at he
          obtain ⟨rfl, rfl⟩ := he; exact ⟨ha, hb⟩
  | quit =>
      simp only [step, Option.some.injEq, Prod.mk.injEq] at he
      obtain ⟨rfl, rfl⟩ := he; exact ⟨ha, hb⟩
  | noKey =>
      simp only [step, Option.some.injEq, Prod.mk.injEq] at he
      obtain ⟨rfl, rfl⟩ := he; exact ⟨ha, hb⟩

theorem dirLe_imp (a b : Entry) :
    keyedL boolLe (fun x => !x.is_dir) false a b = true →
    a.is_dir = false → b.is_dir = false := by
  cases ha : a.is_dir <;> cases hb : b.is_dir <;>
    simp [keyedL, boolLe, ha, hb]

theorem typeLe_imp (a b : Entry) :
    keyedL pairLe (fun x => (!x.is_dir, strLower x.name)) false a b = true →
    a.is_dir = false → b.is_dir = false := by
  cases ha : a.is_dir <;> cases hb : b.is_dir <;>
    simp [keyedL, pairLe, ha, hb]

/-- Claim C1 (code bug): in the shadowed, pagination-aware first definition
of `interactive_explorer`, `right` (and `space`) from a 45-entry directory
land `selected_idx` 20, then 40, and a third press changes nothing; but in
the effective loop (the second definition, which replaces the first at load
time) `right` and `space` leave the state unchanged, so the claimed
behaviour does not occur in the program as loaded. -/
theorem claim_C1 :
    step fs45 0 cfg0 ⟨[], 0⟩ Key.right = some (cfg0, ⟨[], 0⟩)
  ∧ step fs45 0 cfg0 ⟨[], 0⟩ Key.space = some (cfg0, ⟨[], 0⟩)
  ∧ step_paginated fs45 0 cfg0 ⟨[], 0⟩ Key.right = some (cfg0, ⟨[], 20⟩)
  ∧ step_paginated fs45 0 cfg0 ⟨[], 20⟩ Key.right = some (cfg0, ⟨[], 40⟩)
  ∧ step_paginated fs45 0 cfg0 ⟨[], 40⟩ Key.right = some (cfg0, ⟨[], 40⟩)
  ∧ step_paginated fs45 0 cfg0 ⟨[], 0⟩ Key.space = some (cfg0, ⟨[], 20⟩)
  ∧ (list_directory fs45 cfg0 0 [] true).length = 45 := by
  refine ⟨rfl, rfl, ?_, ?_, ?_, ?_, ?_⟩ <;> decide

/-- Claim C2 (confirmed): the effective interaction loop contains no
handler for `left`, `right` or `space`: for every state, each of these
decoded keys leaves the configuration, `current_path` and `selected_idx`
unchanged. -/
theorem claim_C2 (fs : FS) (now : Int) (c : Config) (s : NavState) :
    step fs now c s Key.left = some (c, s)
  ∧ step fs now c s Key.right = some (c, s)
  ∧ step fs now c s Key.space = some (c, s) :=
  ⟨rfl, rfl, rfl⟩

/-- Claim C3 counterexample: at the filesystem root (where no parent row
exists) with a one-entry listing, `up` from `selected_idx = 0` yields
`selected_idx = -1`, which is neither a valid index, nor `0`, nor a
parent-row `-1` (there is no parent row at the root). -/
theorem claim_C3_counterexample :
    step fsC3 0 cfg0 ⟨[], 0⟩ Key.up = some (cfg0, ⟨[], -1⟩)
  ∧ (list_directory fsC3 cfg0 0 [] true).length = 1 := by decide

/-- Claim C3 (amended): every transition keeps `selected_idx ≥ -1`, and
every transition other than a search jump preserves the range invariant
`idxInv` — `selected_idx` within the current listing or exactly `0`, with
the floor `-1` regardless of whether a parent row exists. -/
theorem claim_C3 (fs : FS) (now : Int) (c : Config) (s : NavState) :
    (∀ k c1 s1, -1 ≤ s.selected_idx →
        step fs now c s k = some (c1, s1) → -1 ≤ s1.selected_idx)
  ∧ (∀ k c1 s1, (∀ r, k ≠ Key.search r) → idxInv fs now c s →
        step fs now c s k = some (c1, s1) → idxInv fs now c1 s1) :=
  ⟨fun k c1 s1 h he => step_lb fs now c s k c1 s1 h he,
   fun k c1 s1 hk hinv he => step_inv fs now c s k c1 s1 hk hinv he⟩

/-- Witness for claim C3 at a concrete input. -/
theorem claim_C3_witness :
    -1 ≤ ((⟨[], 0⟩ : NavState)).selected_idx
  ∧ -1 ≤ ((⟨[], -1⟩ : NavState)).selected_idx :=
  ⟨by norm_num, (claim_C3 fsC3 0 cfg0 ⟨[], 0⟩).1 Key.up cfg0 ⟨[], -1⟩
    (by norm_num) (by decide)⟩

/-- Claim C4 counterexample: at the root, `up` from `selected_idx = 0`
yields `-1`, while the claimed formula with `parentFloor = 0` at the root
demands `max (0-1) 0 = 0`. -/
theorem claim_C4_counterexample :
    step fsC4 0 cfg0 ⟨[], 0⟩ Key.up = some (cfg0, ⟨[], -1⟩)
  ∧ (-1 : Int) ≠ max ((0 : Int) - 1) 0 := by decide

/-- Claim C4 (amended): `up` always sets `selected_idx` to
`max (selected_idx - 1) (-1)` — the floor is `-1` even when `current_path`
is the filesystem root. -/
theorem claim_C4 (fs : FS) (now : Int) (c : Config) (s : NavState) :
    step fs now c s Key.up =
      some (c, { s with selected_idx := max (s.selected_idx - 1) (-1) }) := rfl

/-- Claim C5 (code bug): in the effective loop, `enter` on an empty
directory with `selected_idx = 0`, and `enter` with
`selected_idx ≥ len(entries)`, evaluate `entries[selected_idx]` and raise
an uncaught `IndexError` (modelled by `Option.none`), crashing the loop. -/
theorem claim_C5 :
    step fsC5 0 cfg0 ⟨["d"], 0⟩ Key.enter = Option.none
  ∧ (list_directory fsC5 cfg0 0 ["d"] true).length = 0
  ∧ step fsC5 0 cfg0 ⟨[], 2⟩ Key.enter = Option.none
  ∧ (list_directory fsC5 cfg0 0 [] true).length = 1 := by decide

/-- Claim C6 counterexample: a search jump to the existing file `/d/.h`,
which is filtered out of the fresh listing of its parent (hidden name,
`show_hidden = False`), leaves `selected_idx` at its previous value `2`
instead of resetting it to `0`. -/
theorem claim_C6_counterexample :
    fsC6.pexists ["d", ".h"] = true
  ∧ fsC6.isDir ["d", ".h"] = false
  ∧ list_directory fsC6 cfg0 0 ["d"] true = []
  ∧ step fsC6 0 cfg0 ⟨[], 2⟩ (Key.search (some ["d", ".h"])) =
      some (cfg0, ⟨["d"], 2⟩) := by decide

/-- Claim C6 (amended): a search jump to a directory `P` sets
`current_path = P` and `selected_idx = 0`; to a file `P` it sets
`current_path = parent(P)` and `selected_idx` to the index of the first
entry of the fresh listing whose path is `P` — or, when `P` does not
appear in that listing, leaves `selected_idx` at its previous value. -/
theorem claim_C6 (fs : FS) (now : Int) (c : Config) (s : NavState) (rp : FPath) :
    (fs.isDir rp = true →
       step fs now c s (Key.search (some rp)) = some (c, ⟨rp, 0⟩))
  ∧ (∀ i e, fs.isDir rp = false →
       (list_directory fs c now (dirname rp) true).get? i = some e →
       e.path = rp →
       (∀ j, j < i → ∀ e2,
          (list_directory fs c now (dirname rp) true).get? j = some e2 →
          e2.path ≠ rp) →
       step fs now c s (Key.search (some rp)) = some (c, ⟨dirname rp, (i : Int)⟩))
  ∧ ((∀ e ∈ list_directory fs c now (dirname rp) true, e.path ≠ rp) →
       fs.isDir rp = false →
       step fs now c s (Key.search (some rp)) =
         some (c, ⟨dirname rp, s.selected_idx⟩)) := by
  refine ⟨?_, ?_, ?_⟩
  · intro hd
    simp [step, hd]
  · intro i e hd hg he hpre
    have hf := findPathIdx_eq_some rp
      (list_directory fs c now (dirname rp) true) i e 0 hg he hpre
    simp [step, hd, hf]
  · intro hnone hd
    have hf := findPathIdx_eq_none rp
      (list_directory fs c now (dirname rp) true) 0 hnone
    simp [step, hd, hf]

/-- Witness for claim C6 at a concrete input. -/
theorem claim_C6_witness :
    fsC6.isDir ["d"] = true
  ∧ step fsC6 0 cfg0 ⟨[], 2⟩ (Key.search (some ["d"])) = some (cfg0, ⟨["d"], 0⟩) :=
  ⟨by decide, (claim_C6 fsC6 0 cfg0 ⟨[], 2⟩ ["d"]).1 (by decide)⟩

/-- Claim C7 counterexample: with `sort_by = type` and
`reverse_sort = True`, the listing of a directory holding directory `d`
and file `f` is `[f, d]` — the file precedes the directory. -/
theorem claim_C7_counterexample :
    (list_directory fsC7 cfgTypeRev 0 [] true).map Entry.is_dir = [false, true] := by
  decide

/-- Claim C7 (amended): under every configuration except `sort_by = type`
with `reverse_sort = True`, every directory entry precedes every file
entry in the produced listing. -/
theorem claim_C7 (fs : FS) (c : Config) (now : Int) (p : FPath) (d : Bool)
    (h : c.sort_by = SortKey.type → c.reverse_sort = false) :
    (list_directory fs c now p d).Pairwise
      (fun a b => a.is_dir = false → b.is_dir = false) := by
  unfold list_directory
  cases hl : fs.listdir p with
  | none => simp
  | some items0 =>
      cases hs : c.sort_by with
      | type =>
          have hr : c.reverse_sort = false := h hs
          simp only [hs, hr]
          rw [if_neg (by simp)]
          exact List.Pairwise.imp (fun hab => typeLe_imp _ _ hab)
            (pairwise_pySort (keyedL_total pairLe_total _ _)
              (keyedL_trans pairLe_trans _ _) _)
      | name =>
          simp only [hs]
          rw [if_pos (by simp)]
          exact List.Pairwise.imp (fun hab => dirLe_imp _ _ hab)
            (pairwise_pySort (keyedL_total boolLe_total _ _)
              (keyedL_trans boolLe_trans _ _) _)
      | size =>
          simp only [hs]
          rw [if_pos (by simp)]
          exact List.Pairwise.imp (fun hab => dirLe_imp _ _ hab)
            (pairwise_pySort (keyedL_total boolLe_total _ _)
              (keyedL_trans boolLe_trans _ _) _)
      | date =>
          simp only [hs]
          rw [if_pos (by simp)]
          exact List.Pairwise.imp (fun hab => dirLe_imp _ _ hab)
            (pairwise_pySort (keyedL_total boolLe_total _ _)
              (keyedL_trans boolLe_trans _ _) _)

/-- Witness for claim C7 at a concrete input. -/
theorem claim_C7_witness :
    (cfg0.sort_by = SortKey.type → cfg0.reverse_sort = false)
  ∧ (list_directory fsC7 cfg0 0 [] true).Pairwise
      (fun a b => a.is_dir = false → b.is_dir = false) :=
  ⟨by decide, claim_C7 fsC7 cfg0 0 [] true (by decide)⟩

/-- Claim C8 (confirmed): choosing the current sort key flips
`reverse_sort` and keeps `sort_by`; choosing a different key installs it
and clears `reverse_sort`; `selected_idx` becomes `0` either way, and two
same-key toggles restore the configuration exactly. -/
theorem claim_C8 (fs : FS) (now : Int) (c : Config) (s : NavState) (chosen : SortKey) :
    (chosen = c.sort_by →
       step fs now c s (Key.sortSel chosen) =
         some ({ c with reverse_sort := !c.reverse_sort },
               { s with selected_idx := 0 }))
  ∧ (chosen ≠ c.sort_by →
       step fs now c s (Key.sortSel chosen) =
         some ({ c with sort_by := chosen, reverse_sort := false },
               { s with selected_idx := 0 }))
  ∧ Option.bind (step fs now c s (Key.sortSel c.sort_by))
      (fun q => step fs now q.1 q.2 (Key.sortSel c.sort_by)) =
      some (c, { s with selected_idx := 0 }) := by
  refine ⟨?_, ?_, ?_⟩
  · intro h; simp [step, h]
  · intro h; simp [step, h]
  · obtain ⟨sh, sb, rv, fv⟩ := c
    simp [step, Bool.not_not]

/-- Witness for claim C8 at concrete inputs. -/
theorem claim_C8_witness :
    SortKey.name = cfg0.sort_by
  ∧ step fsC3 0 cfg0 ⟨[], 0⟩ (Key.sortSel SortKey.name) =
      some ({ cfg0 with reverse_sort := true }, ⟨[], 0⟩)
  ∧ SortKey.size ≠ cfg0.sort_by
  ∧ step fsC3 0 cfg0 ⟨[], 0⟩ (Key.sortSel SortKey.size) =
      some ({ cfg0 with sort_by := SortKey.size, reverse_sort := false }, ⟨[], 0⟩) :=
  ⟨rfl, (claim_C8 fsC3 0 cfg0 ⟨[], 0⟩ SortKey.name).1 rfl,
   by decide, (claim_C8 fsC3 0 cfg0 ⟨[], 0⟩ SortKey.size).2.1 (by decide)⟩

/-- Claim C9 (confirmed): when `os.listdir` raises, `list_directory`
returns an empty entry list instead of propagating, the error is surfaced
as a message, and the loop keeps `current_path` unchanged under every key
that does not itself navigate. -/
theorem claim_C9 (fs : FS) (now : Int) (c : Config) (p : FPath)
    (h : fs.listdir p = Option.none) :
    list_directory fs c now p true = []
  ∧ list_directory_error fs p = true
  ∧ (∀ s : NavState, s.current_path = p →
      ∀ k ∈ [Key.up, Key.down, Key.left, Key.right, Key.space, Key.hidden,
             Key.refresh, Key.fav, Key.quit, Key.noKey],
        ∃ c1 s1, step fs now c s k = some (c1, s1) ∧ s1.current_path = p)
  ∧ (∀ s : NavState, s.current_path = p → ∀ chosen,
        ∃ c1 s1, step fs now c s (Key.sortSel chosen) = some (c1, s1) ∧
          s1.current_path = p) := by
  refine ⟨?_, ?_, ?_, ?_⟩
  · unfold list_directory; rw [h]
  · unfold list_directory_error; rw [h]
  · intro s hs k hk
    fin_cases hk
    · exact ⟨_, _, rfl, hs⟩
    · exact ⟨_, _, rfl, hs⟩
    · exact ⟨_, _, rfl, hs⟩
    · exact ⟨_, _, rfl, hs⟩
    · exact ⟨_, _, rfl, hs⟩
    · exact ⟨_, _, rfl, hs⟩
    · exact ⟨_, _, rfl, hs⟩
    · by_cases hf : s.current_path ∈ c.favorites
      · exact ⟨{ c with favorites := c.favorites.erase s.current_path }, s,
          by simp [step, hf], hs⟩
      · exact ⟨{ c with favorites := c.favorites ++ [s.current_path] }, s,
          by simp [step, hf], hs⟩
    · exact ⟨_, _, rfl, hs⟩
    · exact ⟨_, _, rfl, hs⟩
  · intro s hs chosen
    by_cases hc : chosen = c.sort_by
    · exact ⟨{ c with reverse_sort := !c.reverse_sort }, { s with selected_idx := 0 },
        by simp [step, hc], hs⟩
    · exact ⟨{ c with sort_by := chosen, reverse_sort := false },
        { s with selected_idx := 0 }, by simp [step, hc], hs⟩

/-- Witness for claim C9 at a concrete input. -/
theorem claim_C9_witness :
    fsNone.listdir ["x"] = Option.none
  ∧ list_directory fsNone cfg0 0 ["x"] true = []
  ∧ list_directory_error fsNone ["x"] = true :=
  ⟨rfl, (claim_C9 fsNone 0 cfg0 ["x"] rfl).1, (claim_C9 fsNone 0 cfg0 ["x"] rfl).2.1⟩

/-- Claim C10 (confirmed): on any I/O error `get_file_info` returns the
sentinel attribute set — size zero, modification time equal to the current
time, and the "unknown" MIME category — rather than propagating an
exception. -/
theorem claim_C10 (fs : FS) (now : Int) (p : FPath)
    (h : fs.stat p = Option.none) :
    get_file_info fs now p =
      { size := 0, modified := now, mime_type := "unknown",
        icon := "❓", extension := "" } := by
  unfold get_file_info; rw [h]

/-- Witness for claim C10 at a concrete input. -/
theorem claim_C10_witness :
    fsNone.stat ["a"] = Option.none
  ∧ get_file_info fsNone 7 ["a"] =
      { size := 0, modified := 7, mime_type := "unknown",
        icon := "❓", extension := "" } :=
  ⟨rfl, claim_C10 fsNone 7 ["a"] rfl⟩
